import Mathlib

/-!
Shallow embedding of the canvas-png-compression PNG encoder.

Byte buffers (`Uint8Array`) are modelled as `List Nat` whose elements are
byte values; element assignment `buf[i] = v` is `List.set` (out-of-range
assignment is a no-op for both), reading `buf[i]` is `List.getD _ _ 0`,
and `Uint8Array.set`-style block copies are `setBytes`.  JavaScript's
`x >>> n` (unsigned shift of a 32-bit truncation) is `x % 2^32 / 2^n`,
and storing into a `Uint8Array` truncates `% 256`.  The external
collaborators (pako's `deflate` and `crc32`) are opaque function
parameters, mirroring the spec's treatment of them as external
interfaces.
-/

namespace CanvasPngCompression

/-- Sequential byte-store loop: writes the bytes of `src` into `to_`
starting at index `pos` (the embedding of `PngWriter.copy` /
`Uint8Array.prototype.set`, one element assignment per byte). -/
def setBytes : List Nat → Nat → List Nat → List Nat
  | to_, _, [] => to_
  | to_, pos, b :: rest => setBytes (to_.set pos b) (pos + 1) rest

/-- The four bytes `value >>> 24, value >>> 16, value >>> 8, value >>> 0`,
each truncated to a byte by the `Uint8Array` store: the big-endian uint32
encoding of `value`. -/
def beBytes (value : Nat) : List Nat :=
  [value % 2 ^ 32 / 2 ^ 24 % 256, value % 2 ^ 32 / 2 ^ 16 % 256,
   value % 2 ^ 32 / 2 ^ 8 % 256, value % 2 ^ 32 % 256]

/-- `PngWriter._writeAsBigEndian`: four element assignments
`arr[startIndex+k] = value >>> (24 - 8k)`. -/
def writeAsBigEndian (arr : List Nat) (value : Nat) (startIndex : Nat) : List Nat :=
  setBytes arr startIndex (beBytes value)

/-- `PngWriter._writeChunk(type, data)`: allocate `len + 12` zero bytes,
write the length at 0 and the type at 4 (both big-endian), copy the
payload at 8 when `data !== null`, take `buf.slice(4, buf.length - 4)`
and write `crc32(0, slice, slice.length, 0)` big-endian at the end.
`crc` is the external `crc32(seed, buf, len, pos)` collaborator. -/
def writeChunk (crc : Nat → List Nat → Nat → Nat → Nat) (type : Nat)
    (data : Option (List Nat)) : List Nat :=
  let len := match data with | some d => d.length | none => 0
  let buf0 := List.replicate (len + 12) 0
  let buf1 := writeAsBigEndian buf0 len 0
  let buf2 := writeAsBigEndian buf1 type 4
  let buf3 := match data with | some d => setBytes buf2 8 d | none => buf2
  let partWithoutLen := List.take (buf3.length - 8) (List.drop 4 buf3)
  writeAsBigEndian buf3 (crc 0 partWithoutLen partWithoutLen.length 0) (buf3.length - 4)

/-- Caller-supplied pako option bag: each field may be absent
(a JavaScript object that simply omits the key). -/
structure PakoOptions where
  level : Option Nat
  windowBits : Option Nat
  chunkSize : Option Nat
  strategy : Option Nat

/-- A fully determined option record as handed to `pako.deflate`. -/
structure ZlibOptions where
  level : Nat
  windowBits : Nat
  chunkSize : Nat
  strategy : Nat
deriving DecidableEq

/-- `Object.assign(defaults, options)` over the four option keys: each field
of the caller's bag overrides the default when present. -/
def objectAssign (base : ZlibOptions) (o : PakoOptions) : ZlibOptions :=
  { level := o.level.getD base.level
    windowBits := o.windowBits.getD base.windowBits
    chunkSize := o.chunkSize.getD base.chunkSize
    strategy := o.strategy.getD base.strategy }

/-- The default option object literal of `PngWriter.write`:
`{level: 0, windowBits: 15, chunkSize: 32*1024, strategy: 3}`. -/
def deflateDefaults : ZlibOptions :=
  { level := 0, windowBits := 15, chunkSize := 32 * 1024, strategy := 3 }

/-- The empty options object `{}` substituted by `options = options || {}`. -/
def emptyOptions : PakoOptions :=
  { level := none, windowBits := none, chunkSize := none, strategy := none }

/-- The options `PngWriter.write` forwards to `pako.deflate`:
`Object.assign({level: 0, windowBits: 15, chunkSize: 32*1024, strategy: 3},
options || {})`. -/
def optionsForwarded (options : Option PakoOptions) : ZlibOptions :=
  objectAssign deflateDefaults (options.getD emptyOptions)

/-- `paethPredictor(left, above, upperLeft)` from `Filter.ts`: JavaScript
number arithmetic is exact here, so the embedding uses `Int`. -/
def paethPredictor (left above upperLeft : Int) : Int :=
  let paeth := left + above - upperLeft
  let pLeft := (paeth - left).natAbs
  let pAbove := (paeth - above).natAbs
  let pUpLeft := (paeth - upperLeft).natAbs
  if pLeft ≤ pAbove ∧ pLeft ≤ pUpLeft then left
  else if pAbove ≤ pUpLeft then above
  else upperLeft

/-- The byte a `Uint8Array` element assignment stores for the (possibly
negative) JavaScript number `v`: `v` modulo 256. -/
def wrap8 (v : Int) : Nat := (v.emod 256).toNat

/-- `i >= bpp ? fromData[fromPos + i - bpp] : 0` — the left neighbour byte. -/
def leftAt (d : List Nat) (fromPos bpp i : Nat) : Nat :=
  if bpp ≤ i then d.getD (fromPos + i - bpp) 0 else 0

/-- `fromPos > 0 ? fromData[fromPos + i - byteWidth] : 0` — the byte above. -/
def upAt (d : List Nat) (fromPos byteWidth i : Nat) : Nat :=
  if 0 < fromPos then d.getD (fromPos + i - byteWidth) 0 else 0

/-- `fromPos > 0 && i >= bpp ? fromData[fromPos + i - (byteWidth + bpp)] : 0`
— the upper-left neighbour byte. -/
def upLeftAt (d : List Nat) (fromPos byteWidth bpp i : Nat) : Nat :=
  if 0 < fromPos ∧ bpp ≤ i then d.getD (fromPos + i - (byteWidth + bpp)) 0 else 0

/-- `filterNone`: the `byteWidth` bytes the loop copies unchanged. The
per-filter functions are modelled as returning the row they write at
`filteredPos`; the destination store itself is `setBytes` in `goRows`. -/
def filterNoneRow (d : List Nat) (fromPos byteWidth : Nat) : List Nat :=
  (List.range byteWidth).map fun i => d.getD (fromPos + i) 0

/-- `filterSub`: `filteredData[filteredPos+i] = fromData[fromPos+i] - left`. -/
def filterSubRow (d : List Nat) (fromPos byteWidth bpp : Nat) : List Nat :=
  (List.range byteWidth).map fun i =>
    wrap8 ((d.getD (fromPos + i) 0 : Int) - (leftAt d fromPos bpp i : Int))

/-- `filterUp`: `filteredData[filteredPos+i] = fromData[fromPos+i] - up`. -/
def filterUpRow (d : List Nat) (fromPos byteWidth : Nat) : List Nat :=
  (List.range byteWidth).map fun i =>
    wrap8 ((d.getD (fromPos + i) 0 : Int) - (upAt d fromPos byteWidth i : Int))

/-- `filterAvg`: subtracts `(left + up) >> 1`; the 9-bit sum cannot overflow
in JavaScript number arithmetic, so the shift is exact floor division. -/
def filterAvgRow (d : List Nat) (fromPos byteWidth bpp : Nat) : List Nat :=
  (List.range byteWidth).map fun i =>
    wrap8 ((d.getD (fromPos + i) 0 : Int) -
      (((leftAt d fromPos bpp i + upAt d fromPos byteWidth i) / 2 : Nat) : Int))

/-- `filterPaeth`: subtracts `paethPredictor(left, up, upleft)`. -/
def filterPaethRow (d : List Nat) (fromPos byteWidth bpp : Nat) : List Nat :=
  (List.range byteWidth).map fun i =>
    wrap8 ((d.getD (fromPos + i) 0 : Int) -
      paethPredictor (leftAt d fromPos bpp i) (upAt d fromPos byteWidth i)
        (upLeftAt d fromPos byteWidth bpp i))

/-- `filterSumNone`: `sum += Math.abs(fromData[i])`. -/
def filterSumNone (d : List Nat) (fromPos byteWidth : Nat) : Nat :=
  ((List.range byteWidth).map fun i => d.getD (fromPos + i) 0).sum

/-- `filterSumSub`: sums `Math.abs(raw - left)` over the pre-wrap signed
residuals. -/
def filterSumSub (d : List Nat) (fromPos byteWidth bpp : Nat) : Nat :=
  ((List.range byteWidth).map fun i =>
    ((d.getD (fromPos + i) 0 : Int) - (leftAt d fromPos bpp i : Int)).natAbs).sum

/-- `filterSumUp`: sums `Math.abs(raw - up)`. -/
def filterSumUp (d : List Nat) (fromPos byteWidth : Nat) : Nat :=
  ((List.range byteWidth).map fun i =>
    ((d.getD (fromPos + i) 0 : Int) - (upAt d fromPos byteWidth i : Int)).natAbs).sum

/-- `filterSumAvg`: sums `Math.abs(raw - ((left + up) >> 1))`. -/
def filterSumAvg (d : List Nat) (fromPos byteWidth bpp : Nat) : Nat :=
  ((List.range byteWidth).map fun i =>
    ((d.getD (fromPos + i) 0 : Int) -
      (((leftAt d fromPos bpp i + upAt d fromPos byteWidth i) / 2 : Nat) : Int)).natAbs).sum

/-- `filterSumPaeth`: sums `Math.abs(raw - paethPredictor(left, up, upleft))`. -/
def filterSumPaeth (d : List Nat) (fromPos byteWidth bpp : Nat) : Nat :=
  ((List.range byteWidth).map fun i =>
    ((d.getD (fromPos + i) 0 : Int) -
      paethPredictor (leftAt d fromPos bpp i) (upAt d fromPos byteWidth i)
        (upLeftAt d fromPos byteWidth bpp i)).natAbs).sum

/-- One entry of the `FILTER_TYPES` dispatch table. -/
structure FilterEntry where
  filter : List Nat → Nat → Nat → Nat → List Nat
  sum : List Nat → Nat → Nat → Nat → Nat
  type : Nat

/-- The `FILTER_TYPES` constant table from `Filter.ts` (the `bpp` argument
is unused by the None and Up entries, as in the source). -/
def FILTER_TYPES : List FilterEntry :=
  [ { filter := fun d fp bw _ => filterNoneRow d fp bw,
      sum := fun d fp bw _ => filterSumNone d fp bw, type := 0 },
    { filter := filterSubRow, sum := filterSumSub, type := 1 },
    { filter := fun d fp bw _ => filterUpRow d fp bw,
      sum := fun d fp bw _ => filterSumUp d fp bw, type := 2 },
    { filter := filterAvgRow, sum := filterSumAvg, type := 3 },
    { filter := filterPaethRow, sum := filterSumPaeth, type := 4 } ]

def defaultEntry : FilterEntry :=
  { filter := fun _ _ _ _ => [], sum := fun _ _ _ _ => 0, type := 0 }

/-- Body of the inner `for (var j = 1; j < FILTER_TYPES.length; j++)` loop:
`filterSumMin` starts at `Infinity` (modelled `none`), and a candidate
replaces the current choice exactly when its sum is strictly smaller. -/
def selectStep (d : List Nat) (fromPos byteWidth bpp : Nat)
    (acc : Nat × Option Nat) (j : Nat) : Nat × Option Nat :=
  let s := (FILTER_TYPES.getD j defaultEntry).sum d fromPos byteWidth bpp
  match acc.2 with
  | none => (j, some s)
  | some m => if s < m then (j, some s) else acc

/-- The filter type the inner loop of `filter` selects for the row starting
at `fromPos` (`filterType` is initialised to 1, skipping None). -/
def chooseFilter (d : List Nat) (fromPos byteWidth bpp : Nat) : Nat :=
  ([1, 2, 3, 4].foldl (selectStep d fromPos byteWidth bpp) (1, none)).1

/-- The `byteWidth + 1` bytes one iteration of the row loop writes: the
chosen entry's `type` byte followed by its filtered row. -/
def rowOut (d : List Nat) (fromPos byteWidth bpp : Nat) : List Nat :=
  (FILTER_TYPES.getD (chooseFilter d fromPos byteWidth bpp) defaultEntry).type ::
    (FILTER_TYPES.getD (chooseFilter d fromPos byteWidth bpp) defaultEntry).filter
      d fromPos byteWidth bpp

/-- The `for (var i = 0; i < height; i++)` row loop of `filter`: writes the
filter-type byte at `filterTypePos`, the filtered row right after it, and
advances both cursors. -/
def goRows (d : List Nat) (byteWidth bpp : Nat) :
    Nat → Nat → Nat → List Nat → List Nat
  | 0, _, _, buf => buf
  | rows + 1, filterTypePos, fromPos, buf =>
      let entry := FILTER_TYPES.getD (chooseFilter d fromPos byteWidth bpp) defaultEntry
      let buf1 := buf.set filterTypePos entry.type
      let buf2 := setBytes buf1 (filterTypePos + 1) (entry.filter d fromPos byteWidth bpp)
      goRows d byteWidth bpp rows (filterTypePos + (byteWidth + 1)) (fromPos + byteWidth) buf2

/-- `filter(imageData)` from `Filter.ts`: `bpp = 4`, `byteWidth = width*4`,
destination `new Uint8Array((byteWidth+1)*height)`, then the row loop. -/
def filter (width height : Nat) (data : List Nat) : List Nat :=
  goRows data (width * 4) 4 height 0 0 (List.replicate ((width * 4 + 1) * height) 0)

/-- Inverse of the Sub filter, from the PNG recovery formula quoted in
`Filter.ts`: `Raw(x) = Sub(x) + Raw(x-bpp) (mod 256)`, with `Raw(x-bpp) = 0`
for `x < bpp`, where `Raw` refers to the already-decoded bytes. -/
def unfilterSubAt (f : List Nat) (bpp : Nat) (x : Nat) : Nat :=
  if h : 0 < bpp ∧ bpp ≤ x then
    (f.getD x 0 + unfilterSubAt f bpp (x - bpp)) % 256
  else
    (f.getD x 0 + 0) % 256
termination_by x
decreasing_by omega

/-- Inverse of the Up filter: `Raw(x) = Up(x) + Prior(x) (mod 256)`; the
prior scanline's decoded bytes equal its raw bytes, read as the source does. -/
def unfilterUpAt (f d : List Nat) (fromPos byteWidth : Nat) (x : Nat) : Nat :=
  (f.getD x 0 + upAt d fromPos byteWidth x) % 256

/-- Inverse of the Average filter:
`Raw(x) = Average(x) + floor((Raw(x-bpp) + Prior(x))/2) (mod 256)`. -/
def unfilterAvgAt (f d : List Nat) (fromPos byteWidth bpp : Nat) (x : Nat) : Nat :=
  if h : 0 < bpp ∧ bpp ≤ x then
    (f.getD x 0 +
      (unfilterAvgAt f d fromPos byteWidth bpp (x - bpp) + upAt d fromPos byteWidth x) / 2) % 256
  else
    (f.getD x 0 + (0 + upAt d fromPos byteWidth x) / 2) % 256
termination_by x
decreasing_by omega

/-- Inverse of the Paeth filter:
`Raw(x) = Paeth(x) + PaethPredictor(Raw(x-bpp), Prior(x), Prior(x-bpp)) (mod 256)`. -/
def unfilterPaethAt (f d : List Nat) (fromPos byteWidth bpp : Nat) (x : Nat) : Nat :=
  if h : 0 < bpp ∧ bpp ≤ x then
    (f.getD x 0 +
      (paethPredictor (unfilterPaethAt f d fromPos byteWidth bpp (x - bpp))
        (upAt d fromPos byteWidth x) (upLeftAt d fromPos byteWidth bpp x)).toNat) % 256
  else
    (f.getD x 0 +
      (paethPredictor 0 (upAt d fromPos byteWidth x)
        (upLeftAt d fromPos byteWidth bpp x)).toNat) % 256
termination_by x
decreasing_by omega

/-- The 8-byte PNG signature constant of `PngWriter`. -/
def PNG_SIGNATURE : List Nat := [0x89, 0x50, 0x4e, 0x47, 0x0d, 0x0a, 0x1a, 0x0a]

def TYPE_IHDR : Nat := 0x49484452

def TYPE_IEND : Nat := 0x49454e44

def TYPE_IDAT : Nat := 0x49444154

/-- `PngWriter.writeIHDRChunk`: a 13-byte buffer with width and height
big-endian, then bit depth 8, color type 6 (RGBA), compression 0, filter
method 0, interlace 0, framed as an `IHDR` chunk. -/
def writeIHDRChunk (crc : Nat → List Nat → Nat → Nat → Nat)
    (width height : Nat) : List Nat :=
  let ihdr := (((((writeAsBigEndian (writeAsBigEndian (List.replicate 13 0) width 0)
    height 4).set 8 8).set 9 6).set 10 0).set 11 0).set 12 0
  writeChunk crc TYPE_IHDR (some ihdr)

/-- `PngWriter.writeIDATChunk`. -/
def writeIDATChunk (crc : Nat → List Nat → Nat → Nat → Nat) (data : List Nat) : List Nat :=
  writeChunk crc TYPE_IDAT (some data)

/-- `PngWriter.writeIENDChunk`: frames the null payload. -/
def writeIENDChunk (crc : Nat → List Nat → Nat → Nat → Nat) : List Nat :=
  writeChunk crc TYPE_IEND none

/-- The final two `reduce` passes of `PngWriter.write`: sum the part lengths,
allocate the output buffer once, and copy each part at its running offset. -/
def concatParts (parts : List (List Nat)) : List Nat :=
  let bufferSize := parts.foldl (fun pr cu => cu.length + pr) 0
  (parts.foldl (fun (acc : List Nat × Nat) cu => (setBytes acc.1 acc.2 cu, acc.2 + cu.length))
    (List.replicate bufferSize 0, 0)).1

/-- `PngWriter.write(imageData, options)`: signature, IHDR, the filtered data
deflated with the merged options framed as IDAT, then IEND, concatenated into
one buffer.  `deflate` is the external `pako.deflate` collaborator. -/
def write (deflate : List Nat → ZlibOptions → List Nat)
    (crc : Nat → List Nat → Nat → Nat → Nat) (width height : Nat)
    (data : List Nat) (options : Option PakoOptions) : List Nat :=
  concatParts [PNG_SIGNATURE, writeIHDRChunk crc width height,
    writeIDATChunk crc (deflate (filter width height data) (optionsForwarded options)),
    writeIENDChunk crc]

theorem setBytes_length (src : List Nat) :
    ∀ (to_ : List Nat) (pos : Nat), (setBytes to_ pos src).length = to_.length := by
  induction src with
  | nil => intro to_ pos; rfl
  | cons b rest ih =>
      intro to_ pos
      simp [setBytes, ih, List.length_set]

theorem beBytes_length (v : Nat) : (beBytes v).length = 4 := rfl

/-- Writing `src` over a zone `z` of matching length that starts right after
prefix `a` replaces the zone with `src`. -/
theorem setBytes_append (src : List Nat) :
    ∀ (a z b : List Nat), z.length = src.length →
      setBytes (a ++ (z ++ b)) a.length src = a ++ (src ++ b) := by
  induction src with
  | nil =>
      intro a z b hz
      have : z = [] := List.eq_nil_of_length_eq_zero hz
      simp [setBytes, this]
  | cons s rest ih =>
      intro a z b hz
      match z, hz with
      | z0 :: zs, hz =>
        have hset : (a ++ (z0 :: zs ++ b)).set a.length s = a ++ (s :: (zs ++ b)) := by
          rw [List.set_append_right _ _ (Nat.le_refl _)]
          simp
        have hlen : zs.length = rest.length := by
          simpa using hz
        calc setBytes (a ++ (z0 :: zs ++ b)) a.length (s :: rest)
            = setBytes ((a ++ [s]) ++ (zs ++ b)) ((a ++ [s]).length) rest := by
              simp only [setBytes, hset]
              congr 1
              · simp
              · simp
          _ = (a ++ [s]) ++ (rest ++ b) := ih (a ++ [s]) zs b hlen
          _ = a ++ (s :: rest ++ b) := by simp

theorem writeAsBigEndian_append (a z b : List Nat) (v : Nat) (hz : z.length = 4) :
    writeAsBigEndian (a ++ (z ++ b)) v a.length = a ++ (beBytes v ++ b) := by
  exact setBytes_append (beBytes v) a z b (by rw [hz, beBytes_length])

theorem setBytes_at (src a z b : List Nat) (pos : Nat) (hz : z.length = src.length)
    (hp : pos = a.length) : setBytes (a ++ (z ++ b)) pos src = a ++ (src ++ b) := by
  subst hp; exact setBytes_append src a z b hz

theorem writeAsBigEndian_at (a z b : List Nat) (v pos : Nat) (hz : z.length = 4)
    (hp : pos = a.length) : writeAsBigEndian (a ++ (z ++ b)) v pos = a ++ (beBytes v ++ b) := by
  subst hp; exact writeAsBigEndian_append a z b v hz

theorem writeChunk_some (crc : Nat → List Nat → Nat → Nat → Nat) (type : Nat) (d : List Nat) :
    writeChunk crc type (some d) =
      beBytes d.length ++ (beBytes type ++ (d ++
        beBytes (crc 0 (beBytes type ++ d) (d.length + 4) 0))) := by
  have h1 : writeAsBigEndian (List.replicate (d.length + 12) 0) d.length 0
      = beBytes d.length ++ List.replicate (d.length + 8) 0 := by
    have hr : d.length + 12 = 4 + (d.length + 8) := by omega
    rw [hr, List.replicate_add]
    simpa using writeAsBigEndian_at [] (List.replicate 4 0)
      (List.replicate (d.length + 8) 0) d.length 0 (by simp) (by simp)
  have h2 : writeAsBigEndian (beBytes d.length ++ List.replicate (d.length + 8) 0) type 4
      = beBytes d.length ++ (beBytes type ++ List.replicate (d.length + 4) 0) := by
    have hr : d.length + 8 = 4 + (d.length + 4) := by omega
    rw [hr, List.replicate_add]
    exact writeAsBigEndian_at (beBytes d.length) (List.replicate 4 0)
      (List.replicate (d.length + 4) 0) type 4 (by simp) (by simp [beBytes_length])
  have h3 : setBytes (beBytes d.length ++ (beBytes type ++ List.replicate (d.length + 4) 0)) 8 d
      = (beBytes d.length ++ beBytes type) ++ (d ++ List.replicate 4 0) := by
    have hr : d.length + 4 = d.length + 4 := rfl
    rw [List.replicate_add, ← List.append_assoc]
    exact setBytes_at d (beBytes d.length ++ beBytes type) (List.replicate d.length 0)
      (List.replicate 4 0) 8 (by simp) (by simp [beBytes_length])
  have hlen3 : ((beBytes d.length ++ beBytes type) ++ (d ++ List.replicate 4 0)).length
      = d.length + 12 := by
    simp [beBytes_length]; omega
  have hpart : List.take (((beBytes d.length ++ beBytes type) ++ (d ++ List.replicate 4 0)).length - 8)
        (List.drop 4 ((beBytes d.length ++ beBytes type) ++ (d ++ List.replicate 4 0)))
      = beBytes type ++ d := by
    rw [hlen3, List.append_assoc]
    rw [List.drop_left' (show (beBytes d.length).length = 4 by simp [beBytes_length])]
    rw [← List.append_assoc]
    exact List.take_left' (by simp [beBytes_length]; omega)
  have hfinal : writeAsBigEndian ((beBytes d.length ++ beBytes type) ++ (d ++ List.replicate 4 0))
        (crc 0 (beBytes type ++ d) ((beBytes type ++ d).length) 0)
        (((beBytes d.length ++ beBytes type) ++ (d ++ List.replicate 4 0)).length - 4)
      = beBytes d.length ++ (beBytes type ++ (d ++
          beBytes (crc 0 (beBytes type ++ d) ((beBytes type ++ d).length) 0))) := by
    rw [hlen3]
    have hshape : (beBytes d.length ++ beBytes type) ++ (d ++ List.replicate 4 0)
        = ((beBytes d.length ++ beBytes type) ++ d) ++ (List.replicate 4 0 ++ []) := by
      simp
    rw [hshape]
    rw [writeAsBigEndian_at ((beBytes d.length ++ beBytes type) ++ d) (List.replicate 4 0) []
      _ _ (by simp) (by simp [beBytes_length]; omega)]
    simp
  rw [writeChunk.eq_def]
  simp only []
  rw [h1, h2, h3, hpart]
  have hplen : (beBytes type ++ d).length = d.length + 4 := by
    simp [beBytes_length]; omega
  rw [← hplen, hfinal, hplen]

theorem writeChunk_none (crc : Nat → List Nat → Nat → Nat → Nat) (type : Nat) :
    writeChunk crc type none =
      beBytes 0 ++ (beBytes type ++ beBytes (crc 0 (beBytes type) 4 0)) := by
  have h1 : writeAsBigEndian (List.replicate 12 0) 0 0
      = beBytes 0 ++ List.replicate 8 0 := by
    have : (12 : Nat) = 4 + 8 := by omega
    rw [this, List.replicate_add]
    simpa using writeAsBigEndian_at [] (List.replicate 4 0)
      (List.replicate 8 0) 0 0 (by simp) (by simp)
  have h2 : writeAsBigEndian (beBytes 0 ++ List.replicate 8 0) type 4
      = beBytes 0 ++ (beBytes type ++ List.replicate 4 0) := by
    have : (8 : Nat) = 4 + 4 := by omega
    rw [this, List.replicate_add]
    exact writeAsBigEndian_at (beBytes 0) (List.replicate 4 0)
      (List.replicate 4 0) type 4 (by simp) (by simp [beBytes_length])
  have hlen2 : (beBytes 0 ++ (beBytes type ++ List.replicate 4 0)).length = 12 := by
    simp [beBytes_length]
  have hpart : List.take ((beBytes 0 ++ (beBytes type ++ List.replicate 4 0)).length - 8)
        (List.drop 4 (beBytes 0 ++ (beBytes type ++ List.replicate 4 0)))
      = beBytes type := by
    rw [hlen2]
    rw [List.drop_left' (show (beBytes 0).length = 4 by simp [beBytes_length])]
    exact List.take_left' (by simp [beBytes_length])
  have hfinal : writeAsBigEndian (beBytes 0 ++ (beBytes type ++ List.replicate 4 0))
        (crc 0 (beBytes type) 4 0)
        ((beBytes 0 ++ (beBytes type ++ List.replicate 4 0)).length - 4)
      = beBytes 0 ++ (beBytes type ++ beBytes (crc 0 (beBytes type) 4 0)) := by
    rw [hlen2]
    have hshape : beBytes 0 ++ (beBytes type ++ List.replicate 4 0)
        = (beBytes 0 ++ beBytes type) ++ (List.replicate 4 0 ++ []) := by simp
    rw [hshape]
    rw [writeAsBigEndian_at (beBytes 0 ++ beBytes type) (List.replicate 4 0) []
      _ _ (by simp) (by simp [beBytes_length])]
    simp
  rw [writeChunk.eq_def]
  simp only []
  rw [h1, h2, hpart]
  have hplen : (beBytes type).length = 4 := beBytes_length type
  rw [hplen, hfinal]

/-- C1: for every type tag and every payload (including the null payload),
`_writeChunk` returns `payload.length + 12` bytes laid out as the big-endian
length, the big-endian type tag, the payload, and the CRC32 (seed 0) taken
over exactly the type bytes concatenated with the payload — the length field
excluded; the null payload gives the 12-byte frame with length 0 and CRC over
the 4 type bytes alone. -/
theorem chunk_frame_layout (crc : Nat → List Nat → Nat → Nat → Nat) (type : Nat)
    (data : Option (List Nat)) :
    writeChunk crc type data =
      beBytes (data.getD []).length ++ beBytes type ++ data.getD [] ++
        beBytes (crc 0 (beBytes type ++ data.getD []) ((data.getD []).length + 4) 0) ∧
    (writeChunk crc type data).length = (data.getD []).length + 12 := by
  cases data with
  | none =>
      refine ⟨?_, ?_⟩
      · simpa using writeChunk_none crc type
      · rw [writeChunk_none]
        simp [beBytes_length]
  | some d =>
      refine ⟨?_, ?_⟩
      · simpa [List.append_assoc] using writeChunk_some crc type d
      · rw [writeChunk_some]
        simp [beBytes_length]
        omega

/-- C7: the options forwarded to the compressor are the defaults
`{windowBits: 15, chunkSize: 32768, strategy: 3}` (and `level: 0`)
overridden field-by-field by the caller's values, with caller values taking
precedence; supplying only `{level: 5}` leaves `windowBits` at 15,
`chunkSize` at 32768 and `strategy` at 3. -/
theorem option_merge_field_by_field (o : PakoOptions) :
    optionsForwarded (some o) =
      { level := o.level.getD 0, windowBits := o.windowBits.getD 15,
        chunkSize := o.chunkSize.getD 32768, strategy := o.strategy.getD 3 } ∧
    optionsForwarded (some ⟨some 5, none, none, none⟩) =
      { level := 5, windowBits := 15, chunkSize := 32768, strategy := 3 } := by
  exact ⟨rfl, rfl⟩

/-- C9: with no caller options (or a bag that omits `level`), the compressor
is invoked with `level = 0` together with `windowBits = 15`,
`chunkSize = 32768` and `strategy = 3`. -/
theorem default_options_forwarded :
    optionsForwarded none =
      { level := 0, windowBits := 15, chunkSize := 32768, strategy := 3 } ∧
    ∀ wb cs st : Option Nat,
      (optionsForwarded (some ⟨none, wb, cs, st⟩)).level = 0 := by
  exact ⟨rfl, fun _ _ _ => rfl⟩

/-- The predictor always answers with one of its three inputs. -/
theorem paethPredictor_mem (a b c : Int) :
    paethPredictor a b c = a ∨ paethPredictor a b c = b ∨ paethPredictor a b c = c := by
  unfold paethPredictor
  dsimp only
  split
  · exact Or.inl rfl
  · split
    · exact Or.inr (Or.inl rfl)
    · exact Or.inr (Or.inr rfl)

/-- C6: the Paeth predictor computes `p = a + b - c` exactly,
`pa = |p-a|`, `pb = |p-b|`, `pc = |p-c|`, and returns `a` when
`pa ≤ pb` and `pa ≤ pc`, else `b` when `pb ≤ pc`, else `c`; when the three
distances are all equal it returns the left value `a`. -/
theorem paeth_predictor_tie_break (a b c : Int) :
    ((a + b - c - a).natAbs ≤ (a + b - c - b).natAbs →
      (a + b - c - a).natAbs ≤ (a + b - c - c).natAbs →
        paethPredictor a b c = a) ∧
    (¬((a + b - c - a).natAbs ≤ (a + b - c - b).natAbs ∧
        (a + b - c - a).natAbs ≤ (a + b - c - c).natAbs) →
      (a + b - c - b).natAbs ≤ (a + b - c - c).natAbs →
        paethPredictor a b c = b) ∧
    (¬((a + b - c - a).natAbs ≤ (a + b - c - b).natAbs ∧
        (a + b - c - a).natAbs ≤ (a + b - c - c).natAbs) →
      ¬(a + b - c - b).natAbs ≤ (a + b - c - c).natAbs →
        paethPredictor a b c = c) ∧
    ((a + b - c - a).natAbs = (a + b - c - b).natAbs →
      (a + b - c - b).natAbs = (a + b - c - c).natAbs →
        paethPredictor a b c = a) := by
  unfold paethPredictor
  dsimp only
  refine ⟨?_, ?_, ?_, ?_⟩
  · intro h1 h2
    simp [h1, h2]
  · intro h1 h2
    rw [if_neg h1, if_pos h2]
  · intro h1 h2
    rw [if_neg h1, if_neg h2]
  · intro h1 h2
    have : (a + b - c - a).natAbs ≤ (a + b - c - b).natAbs ∧
        (a + b - c - a).natAbs ≤ (a + b - c - c).natAbs := by
      constructor <;> omega
    simp [this]

theorem paeth_predictor_tie_break_witness : paethPredictor 7 7 7 = 7 :=
  (paeth_predictor_tie_break 7 7 7).2.2.2 (by decide) (by decide)

theorem getD_FILTER_TYPES_one :
    FILTER_TYPES.getD 1 defaultEntry = ⟨filterSubRow, filterSumSub, 1⟩ := rfl

theorem getD_FILTER_TYPES_two :
    FILTER_TYPES.getD 2 defaultEntry =
      ⟨fun d fp bw _ => filterUpRow d fp bw, fun d fp bw _ => filterSumUp d fp bw, 2⟩ := rfl

theorem getD_FILTER_TYPES_three :
    FILTER_TYPES.getD 3 defaultEntry = ⟨filterAvgRow, filterSumAvg, 3⟩ := rfl

theorem getD_FILTER_TYPES_four :
    FILTER_TYPES.getD 4 defaultEntry = ⟨filterPaethRow, filterSumPaeth, 4⟩ := rfl

theorem select_step_none (d : List Nat) (fp bw bpp j t : Nat) :
    selectStep d fp bw bpp (t, none) j =
      (j, some ((FILTER_TYPES.getD j defaultEntry).sum d fp bw bpp)) := rfl

theorem select_step_some (d : List Nat) (fp bw bpp j t m : Nat) :
    selectStep d fp bw bpp (t, some m) j =
      if (FILTER_TYPES.getD j defaultEntry).sum d fp bw bpp < m then
        (j, some ((FILTER_TYPES.getD j defaultEntry).sum d fp bw bpp))
      else (t, some m) := rfl

theorem selectStep_ite (d : List Nat) (fp bw bpp j : Nat) (c : Prop) [Decidable c]
    (x y : Nat × Option Nat) :
    selectStep d fp bw bpp (if c then x else y) j =
      if c then selectStep d fp bw bpp x j else selectStep d fp bw bpp y j := by
  split <;> rfl

theorem ite_fst (c : Prop) [Decidable c] (x y : Nat × Option Nat) :
    (if c then x else y).1 = if c then x.1 else y.1 := by
  split <;> rfl

/-- Closed form of the selection loop: the strictly-smallest sum wins and
ties keep the earliest of Sub, Up, Average, Paeth. -/
theorem chooseFilter_eq (d : List Nat) (fp bw bpp : Nat) :
    chooseFilter d fp bw bpp =
      if filterSumSub d fp bw bpp ≤ filterSumUp d fp bw ∧
          filterSumSub d fp bw bpp ≤ filterSumAvg d fp bw bpp ∧
          filterSumSub d fp bw bpp ≤ filterSumPaeth d fp bw bpp then 1
      else if filterSumUp d fp bw ≤ filterSumAvg d fp bw bpp ∧
          filterSumUp d fp bw ≤ filterSumPaeth d fp bw bpp then 2
      else if filterSumAvg d fp bw bpp ≤ filterSumPaeth d fp bw bpp then 3
      else 4 := by
  unfold chooseFilter
  simp only [List.foldl_cons, List.foldl_nil, select_step_none, select_step_some,
    selectStep_ite, ite_fst, getD_FILTER_TYPES_one, getD_FILTER_TYPES_two,
    getD_FILTER_TYPES_three, getD_FILTER_TYPES_four]
  split_ifs <;> omega

theorem chooseFilter_bounds (d : List Nat) (fp bw bpp : Nat) :
    1 ≤ chooseFilter d fp bw bpp ∧ chooseFilter d fp bw bpp ≤ 4 := by
  rw [chooseFilter_eq]
  split_ifs <;> omega

theorem entry_filter_length (d : List Nat) (fp bw bpp j : Nat)
    (h1 : 1 ≤ j) (h4 : j ≤ 4) :
    ((FILTER_TYPES.getD j defaultEntry).filter d fp bw bpp).length = bw := by
  interval_cases j
  · rw [getD_FILTER_TYPES_one]
    simp [filterSubRow]
  · rw [getD_FILTER_TYPES_two]
    simp [filterUpRow]
  · rw [getD_FILTER_TYPES_three]
    simp [filterAvgRow]
  · rw [getD_FILTER_TYPES_four]
    simp [filterPaethRow]

theorem entry_type_eq (j : Nat) (h1 : 1 ≤ j) (h4 : j ≤ 4) :
    (FILTER_TYPES.getD j defaultEntry).type = j := by
  interval_cases j <;> rfl

theorem rowOut_length (d : List Nat) (fp bw bpp : Nat) :
    (rowOut d fp bw bpp).length = bw + 1 := by
  obtain ⟨h1, h4⟩ := chooseFilter_bounds d fp bw bpp
  rw [rowOut, List.length_cons, entry_filter_length d fp bw bpp _ h1 h4]

theorem rowOut_head (d : List Nat) (fp bw bpp : Nat) :
    (rowOut d fp bw bpp).getD 0 0 = chooseFilter d fp bw bpp := by
  obtain ⟨h1, h4⟩ := chooseFilter_bounds d fp bw bpp
  rw [rowOut, List.getD_cons_zero, entry_type_eq _ h1 h4]

/-- The row loop writes exactly the concatenation of the per-row outputs
after the part already written. -/
theorem goRows_spec (d : List Nat) (bw bpp : Nat) :
    ∀ (rows : Nat) (done : List Nat) (fp : Nat),
      goRows d bw bpp rows done.length fp (done ++ List.replicate (rows * (bw + 1)) 0)
        = done ++ ((List.range rows).map fun r => rowOut d (fp + r * bw) bw bpp).flatten := by
  intro rows
  induction rows with
  | zero => intro done fp; simp [goRows]
  | succ rows ih =>
      intro done fp
      obtain ⟨hc1, hc4⟩ := chooseFilter_bounds d fp bw bpp
      have hrepl : List.replicate ((rows + 1) * (bw + 1)) (0 : Nat)
          = 0 :: (List.replicate bw 0 ++ List.replicate (rows * (bw + 1)) 0) := by
        have : (rows + 1) * (bw + 1) = (bw + 1) + rows * (bw + 1) := by ring
        rw [this, List.replicate_add, List.replicate_succ]
        simp
      rw [goRows, hrepl]
      have hset : (done ++ (0 :: (List.replicate bw 0 ++ List.replicate (rows * (bw + 1)) 0))).set
            done.length ((FILTER_TYPES.getD (chooseFilter d fp bw bpp) defaultEntry).type)
          = done ++ ((FILTER_TYPES.getD (chooseFilter d fp bw bpp) defaultEntry).type ::
              (List.replicate bw 0 ++ List.replicate (rows * (bw + 1)) 0)) := by
        rw [List.set_append_right _ _ (Nat.le_refl _)]
        simp
      rw [hset]
      have hshape : done ++ ((FILTER_TYPES.getD (chooseFilter d fp bw bpp) defaultEntry).type ::
            (List.replicate bw 0 ++ List.replicate (rows * (bw + 1)) 0))
          = (done ++ [(FILTER_TYPES.getD (chooseFilter d fp bw bpp) defaultEntry).type]) ++
              (List.replicate bw 0 ++ List.replicate (rows * (bw + 1)) 0) := by
        simp
      rw [hshape]
      have hsetB : setBytes ((done ++ [(FILTER_TYPES.getD (chooseFilter d fp bw bpp) defaultEntry).type]) ++
            (List.replicate bw 0 ++ List.replicate (rows * (bw + 1)) 0)) (done.length + 1)
            ((FILTER_TYPES.getD (chooseFilter d fp bw bpp) defaultEntry).filter d fp bw bpp)
          = (done ++ [(FILTER_TYPES.getD (chooseFilter d fp bw bpp) defaultEntry).type]) ++
              (((FILTER_TYPES.getD (chooseFilter d fp bw bpp) defaultEntry).filter d fp bw bpp) ++
                List.replicate (rows * (bw + 1)) 0) := by
        exact setBytes_at _ _ _ _ _
          (by rw [List.length_replicate, entry_filter_length d fp bw bpp _ hc1 hc4])
          (by simp)
      rw [hsetB]
      have hjoin : (done ++ [(FILTER_TYPES.getD (chooseFilter d fp bw bpp) defaultEntry).type]) ++
            (((FILTER_TYPES.getD (chooseFilter d fp bw bpp) defaultEntry).filter d fp bw bpp) ++
              List.replicate (rows * (bw + 1)) 0)
          = (done ++ rowOut d fp bw bpp) ++ List.replicate (rows * (bw + 1)) 0 := by
        simp [rowOut]
      rw [hjoin]
      have hpos : done.length + (bw + 1) = (done ++ rowOut d fp bw bpp).length := by
        simp [rowOut_length]
      rw [hpos, ih (done ++ rowOut d fp bw bpp) (fp + bw)]
      rw [List.range_succ_eq_map]
      simp only [List.map_cons, List.flatten_cons, List.map_map]
      have hmaps : (List.range rows).map ((fun r => rowOut d (fp + r * bw) bw bpp) ∘ Nat.succ)
          = (List.range rows).map fun r => rowOut d (fp + bw + r * bw) bw bpp := by
        apply List.map_congr_left
        intro r _
        simp only [Function.comp]
        congr 1
        rw [Nat.succ_mul]
        ring
      rw [hmaps]
      simp

/-- `filter` output is the flattening of the per-row outputs. -/
theorem filter_eq_flatten (w h : Nat) (data : List Nat) :
    filter w h data =
      ((List.range h).map fun r => rowOut data (r * (w * 4)) (w * 4) 4).flatten := by
  unfold filter
  have := goRows_spec data (w * 4) 4 h [] 0
  simp only [List.length_nil, List.nil_append, Nat.zero_add] at this
  rw [Nat.mul_comm (w * 4 + 1) h]
  rw [this]

theorem flatten_drop_rows (L : Nat) :
    ∀ (rows : List (List Nat)) (r : Nat), (∀ row ∈ rows, row.length = L) →
      List.drop (r * L) rows.flatten = (rows.drop r).flatten := by
  intro rows
  induction rows with
  | nil => intro r _; simp
  | cons p ps ih =>
      intro r hL
      cases r with
      | zero => simp
      | succ r =>
          have hp : p.length = L := hL p (by simp)
          have hL' : ∀ row ∈ ps, row.length = L := fun row hrow => hL row (by simp [hrow])
          have hmul : (r + 1) * L = L + r * L := by ring
          rw [hmul, List.flatten_cons, List.drop_succ_cons, ← List.drop_drop,
            List.drop_left' hp, ih r hL']

/-- Row `r` of a flattening of uniform-length rows, as a `take`/`drop` slice. -/
theorem flatten_row_slice (L : Nat) (rows : List (List Nat)) (r : Nat)
    (hL : ∀ row ∈ rows, row.length = L) (hr : r < rows.length) :
    List.take L (List.drop (r * L) rows.flatten) = rows.getD r [] := by
  rw [flatten_drop_rows L rows r hL, List.drop_eq_getElem_cons hr, List.flatten_cons]
  have hlen : rows[r].length = L := hL _ (List.getElem_mem hr)
  rw [List.take_left' hlen, List.getD_eq_getElem?_getD, List.getElem?_eq_getElem hr]
  rfl

theorem getD_map_range (dflt : List Nat) (f : Nat → List Nat) (h r : Nat) (hr : r < h) :
    ((List.range h).map f).getD r dflt = f r := by
  rw [List.getD_eq_getElem?_getD, List.getElem?_eq_getElem (by simpa using hr)]
  simp

theorem getD_drop_zero (l : List Nat) (n : Nat) :
    (List.drop n l).getD 0 0 = l.getD n 0 := by
  rw [List.getD_eq_getElem?_getD, List.getD_eq_getElem?_getD, List.getElem?_drop,
    Nat.add_zero]

theorem getD_take_zero (L : Nat) (hL : 0 < L) (x : List Nat) :
    (List.take L x).getD 0 0 = x.getD 0 0 := by
  cases x with
  | nil => simp
  | cons a t =>
      cases L with
      | zero => omega
      | succ L => simp [List.take_succ_cons]

theorem filter_rows_length (w h : Nat) (data : List Nat) :
    ∀ row ∈ (List.range h).map fun r => rowOut data (r * (w * 4)) (w * 4) 4,
      row.length = w * 4 + 1 := by
  intro row hrow
  obtain ⟨r, _, rfl⟩ := List.mem_map.mp hrow
  exact rowOut_length data (r * (w * 4)) (w * 4) 4

/-- The slice of the filtered buffer holding row `r`'s output. -/
theorem filter_row_slice (w h : Nat) (data : List Nat) (r : Nat) (hr : r < h) :
    List.take (w * 4 + 1) (List.drop (r * (w * 4 + 1)) (filter w h data))
      = rowOut data (r * (w * 4)) (w * 4) 4 := by
  rw [filter_eq_flatten,
    flatten_row_slice (w * 4 + 1) _ r (filter_rows_length w h data) (by simpa using hr),
    getD_map_range _ _ h r hr]

/-- The filter-type byte of row `r` in the filtered buffer. -/
theorem filter_row_start (w h : Nat) (data : List Nat) (r : Nat) (hr : r < h) :
    (filter w h data).getD (r * (w * 4 + 1)) 0
      = chooseFilter data (r * (w * 4)) (w * 4) 4 := by
  have hslice := filter_row_slice w h data r hr
  calc (filter w h data).getD (r * (w * 4 + 1)) 0
      = (List.drop (r * (w * 4 + 1)) (filter w h data)).getD 0 0 :=
        (getD_drop_zero _ _).symm
    _ = (List.take (w * 4 + 1) (List.drop (r * (w * 4 + 1)) (filter w h data))).getD 0 0 :=
        (getD_take_zero _ (by omega) _).symm
    _ = (rowOut data (r * (w * 4)) (w * 4) 4).getD 0 0 := by rw [hslice]
    _ = chooseFilter data (r * (w * 4)) (w * 4) 4 := rowOut_head _ _ _ _

/-- C3: every row is scored with exactly the four filters Sub, Up, Average,
Paeth (never None) by summing the absolute values of the pre-wrap signed
residuals; the strictly smallest sum wins with ties resolved to the first of
Sub, Up, Average, Paeth, and the filter-type byte emitted at each row start
is in {1,2,3,4}. -/
theorem adaptive_filter_selection :
    (∀ (d : List Nat) (fp bw bpp : Nat),
      chooseFilter d fp bw bpp =
        if filterSumSub d fp bw bpp ≤ filterSumUp d fp bw ∧
            filterSumSub d fp bw bpp ≤ filterSumAvg d fp bw bpp ∧
            filterSumSub d fp bw bpp ≤ filterSumPaeth d fp bw bpp then 1
        else if filterSumUp d fp bw ≤ filterSumAvg d fp bw bpp ∧
            filterSumUp d fp bw ≤ filterSumPaeth d fp bw bpp then 2
        else if filterSumAvg d fp bw bpp ≤ filterSumPaeth d fp bw bpp then 3
        else 4) ∧
    (∀ (w h : Nat) (data : List Nat) (r : Nat), r < h →
      (filter w h data).getD (r * (w * 4 + 1)) 0
          = chooseFilter data (r * (w * 4)) (w * 4) 4 ∧
        1 ≤ (filter w h data).getD (r * (w * 4 + 1)) 0 ∧
        (filter w h data).getD (r * (w * 4 + 1)) 0 ≤ 4) := by
  refine ⟨chooseFilter_eq, fun w h data r hr => ?_⟩
  have hstart := filter_row_start w h data r hr
  have hb := chooseFilter_bounds data (r * (w * 4)) (w * 4) 4
  exact ⟨hstart, by omega, by omega⟩

theorem adaptive_filter_selection_witness :
    (filter 1 1 [9, 8, 7, 6]).getD (0 * (1 * 4 + 1)) 0
        = chooseFilter [9, 8, 7, 6] (0 * (1 * 4)) (1 * 4) 4 ∧
      1 ≤ (filter 1 1 [9, 8, 7, 6]).getD (0 * (1 * 4 + 1)) 0 ∧
      (filter 1 1 [9, 8, 7, 6]).getD (0 * (1 * 4 + 1)) 0 ≤ 4 :=
  adaptive_filter_selection.2 1 1 [9, 8, 7, 6] 0 (by decide)

/-- C8: for the 2×1 image of two identical red pixels the selection picks Sub
for the single row and the filter-type byte written at position 0 of the
filtered buffer is 1. -/
theorem red_pixels_select_sub :
    chooseFilter [255, 0, 0, 255, 255, 0, 0, 255] 0 8 4 = 1 ∧
    (filter 2 1 [255, 0, 0, 255, 255, 0, 0, 255]).getD 0 0 = 1 := by
  exact ⟨by decide, by decide⟩

/-- All four neighbour reads of row `r` stay inside rows `r` and `r - 1`,
so two buffers agreeing there give the same reads. -/
theorem reads_congr (d1 d2 : List Nat) (bw bpp r : Nat)
    (hcur : ∀ i, i < bw → d1.getD (r * bw + i) 0 = d2.getD (r * bw + i) 0)
    (hprev : 0 < r → ∀ i, i < bw →
      d1.getD ((r - 1) * bw + i) 0 = d2.getD ((r - 1) * bw + i) 0) :
    ∀ i, i < bw →
      d1.getD (r * bw + i) 0 = d2.getD (r * bw + i) 0 ∧
      leftAt d1 (r * bw) bpp i = leftAt d2 (r * bw) bpp i ∧
      upAt d1 (r * bw) bw i = upAt d2 (r * bw) bw i ∧
      upLeftAt d1 (r * bw) bw bpp i = upLeftAt d2 (r * bw) bw bpp i := by
  intro i hi
  have hposr : 0 < r * bw → 0 < r := by
    intro hpos
    rcases Nat.eq_zero_or_pos r with h0 | h0
    · rw [h0] at hpos; simp at hpos
    · exact h0
  refine ⟨hcur i hi, ?_, ?_, ?_⟩
  · unfold leftAt
    split
    · have hidx : r * bw + i - bpp = r * bw + (i - bpp) := by omega
      rw [hidx]
      exact hcur (i - bpp) (by omega)
    · rfl
  · unfold upAt
    split
    · rename_i hpos
      have hr0 : 0 < r := hposr hpos
      have hidx : r * bw + i - bw = (r - 1) * bw + i := by
        cases r with
        | zero => omega
        | succ r' => rw [Nat.succ_sub_one, Nat.succ_mul]; omega
      rw [hidx]
      exact hprev hr0 i hi
    · rfl
  · unfold upLeftAt
    split
    · rename_i hpos
      have hr0 : 0 < r := hposr hpos.1
      have hbw0 : 0 < bw := by
        rcases Nat.eq_zero_or_pos bw with h0 | h0
        · rw [h0] at hpos; simp at hpos
        · exact h0
      have hidx : r * bw + i - (bw + bpp) = (r - 1) * bw + (i - bpp) := by
        cases r with
        | zero => omega
        | succ r' => rw [Nat.succ_sub_one, Nat.succ_mul]; omega
      rw [hidx]
      exact hprev hr0 (i - bpp) (by omega)
    · rfl

/-- The four candidate sums of row `r` depend only on rows `r` and `r - 1`. -/
theorem sums_congr (d1 d2 : List Nat) (bw bpp r : Nat)
    (hcur : ∀ i, i < bw → d1.getD (r * bw + i) 0 = d2.getD (r * bw + i) 0)
    (hprev : 0 < r → ∀ i, i < bw →
      d1.getD ((r - 1) * bw + i) 0 = d2.getD ((r - 1) * bw + i) 0) :
    filterSumSub d1 (r * bw) bw bpp = filterSumSub d2 (r * bw) bw bpp ∧
    filterSumUp d1 (r * bw) bw = filterSumUp d2 (r * bw) bw ∧
    filterSumAvg d1 (r * bw) bw bpp = filterSumAvg d2 (r * bw) bw bpp ∧
    filterSumPaeth d1 (r * bw) bw bpp = filterSumPaeth d2 (r * bw) bw bpp := by
  have hrd := reads_congr d1 d2 bw bpp r hcur hprev
  refine ⟨?_, ?_, ?_, ?_⟩ <;>
    · simp only [filterSumSub, filterSumUp, filterSumAvg, filterSumPaeth]
      congr 1
      apply List.map_congr_left
      intro i hi
      have hi' : i < bw := List.mem_range.mp hi
      obtain ⟨h1, h2, h3, h4⟩ := hrd i hi'
      simp only [h1, h2, h3, h4]

/-- The four candidate rows of row `r` depend only on rows `r` and `r - 1`. -/
theorem filterRows_congr (d1 d2 : List Nat) (bw bpp r : Nat)
    (hcur : ∀ i, i < bw → d1.getD (r * bw + i) 0 = d2.getD (r * bw + i) 0)
    (hprev : 0 < r → ∀ i, i < bw →
      d1.getD ((r - 1) * bw + i) 0 = d2.getD ((r - 1) * bw + i) 0) :
    filterSubRow d1 (r * bw) bw bpp = filterSubRow d2 (r * bw) bw bpp ∧
    filterUpRow d1 (r * bw) bw = filterUpRow d2 (r * bw) bw ∧
    filterAvgRow d1 (r * bw) bw bpp = filterAvgRow d2 (r * bw) bw bpp ∧
    filterPaethRow d1 (r * bw) bw bpp = filterPaethRow d2 (r * bw) bw bpp := by
  have hrd := reads_congr d1 d2 bw bpp r hcur hprev
  refine ⟨?_, ?_, ?_, ?_⟩ <;>
    · simp only [filterSubRow, filterUpRow, filterAvgRow, filterPaethRow]
      apply List.map_congr_left
      intro i hi
      have hi' : i < bw := List.mem_range.mp hi
      obtain ⟨h1, h2, h3, h4⟩ := hrd i hi'
      simp only [h1, h2, h3, h4]

theorem chooseFilter_congr (d1 d2 : List Nat) (bw bpp r : Nat)
    (hcur : ∀ i, i < bw → d1.getD (r * bw + i) 0 = d2.getD (r * bw + i) 0)
    (hprev : 0 < r → ∀ i, i < bw →
      d1.getD ((r - 1) * bw + i) 0 = d2.getD ((r - 1) * bw + i) 0) :
    chooseFilter d1 (r * bw) bw bpp = chooseFilter d2 (r * bw) bw bpp := by
  obtain ⟨h1, h2, h3, h4⟩ := sums_congr d1 d2 bw bpp r hcur hprev
  rw [chooseFilter_eq, chooseFilter_eq, h1, h2, h3, h4]

theorem rowOut_congr (d1 d2 : List Nat) (bw bpp r : Nat)
    (hcur : ∀ i, i < bw → d1.getD (r * bw + i) 0 = d2.getD (r * bw + i) 0)
    (hprev : 0 < r → ∀ i, i < bw →
      d1.getD ((r - 1) * bw + i) 0 = d2.getD ((r - 1) * bw + i) 0) :
    rowOut d1 (r * bw) bw bpp = rowOut d2 (r * bw) bw bpp := by
  have hch := chooseFilter_congr d1 d2 bw bpp r hcur hprev
  obtain ⟨hr1, hr2, hr3, hr4⟩ := filterRows_congr d1 d2 bw bpp r hcur hprev
  obtain ⟨hc1, hc4⟩ := chooseFilter_bounds d1 (r * bw) bw bpp
  rw [rowOut, rowOut, ← hch]
  congr 1
  interval_cases hj : chooseFilter d1 (r * bw) bw bpp
  · rw [getD_FILTER_TYPES_one]; exact hr1
  · rw [getD_FILTER_TYPES_two]; exact hr2
  · rw [getD_FILTER_TYPES_three]; exact hr3
  · rw [getD_FILTER_TYPES_four]; exact hr4

/-- C10: the output written for row `r` (its filter choice, its filter-type
byte and its transformed bytes) depends only on the bytes of row `r` and of
row `r - 1`: two buffers of the same dimensions agreeing there produce the
same chosen type and an identical row slice of the filtered buffer. -/
theorem row_output_locality (d1 d2 : List Nat) (w h r : Nat) (hr : r < h)
    (hcur : ∀ i, i < w * 4 →
      d1.getD (r * (w * 4) + i) 0 = d2.getD (r * (w * 4) + i) 0)
    (hprev : 0 < r → ∀ i, i < w * 4 →
      d1.getD ((r - 1) * (w * 4) + i) 0 = d2.getD ((r - 1) * (w * 4) + i) 0) :
    chooseFilter d1 (r * (w * 4)) (w * 4) 4 = chooseFilter d2 (r * (w * 4)) (w * 4) 4 ∧
    List.take (w * 4 + 1) (List.drop (r * (w * 4 + 1)) (filter w h d1))
      = List.take (w * 4 + 1) (List.drop (r * (w * 4 + 1)) (filter w h d2)) := by
  refine ⟨chooseFilter_congr d1 d2 (w * 4) 4 r hcur hprev, ?_⟩
  rw [filter_row_slice w h d1 r hr, filter_row_slice w h d2 r hr]
  exact rowOut_congr d1 d2 (w * 4) 4 r hcur hprev

theorem getD_lt_256 (d : List Nat) (hB : ∀ b ∈ d, b < 256) (j : Nat) :
    d.getD j 0 < 256 := by
  rw [List.getD_eq_getElem?_getD]
  cases h : d[j]? with
  | none => simp
  | some v =>
      have hv : v ∈ d := List.getElem?_mem h
      simpa using hB v hv

/-- Undoing a mod-256 difference by adding the subtrahend back recovers any
byte-sized value. -/
theorem wrap8_add_cancel (r p : Nat) (hr : r < 256) :
    (wrap8 ((r : Int) - (p : Int)) + p) % 256 = r := by
  unfold wrap8
  have h0 : (0 : Int) ≤ ((r : Int) - p).emod 256 := Int.emod_nonneg _ (by norm_num)
  have h1 : ((r : Int) - p).emod 256 < 256 := Int.emod_lt_of_pos _ (by norm_num)
  have hk : ((r : Int) - p).emod 256 + 256 * (((r : Int) - p).ediv 256) = (r : Int) - p :=
    Int.emod_add_ediv _ _
  omega

theorem getD_range_map (g : Nat → Nat) (n x : Nat) (hx : x < n) :
    ((List.range n).map g).getD x 0 = g x := by
  rw [List.getD_eq_getElem?_getD, List.getElem?_eq_getElem (by simpa using hx)]
  simp

theorem unfilterSub_roundtrip (d : List Nat) (fp bw bpp : Nat)
    (hB : ∀ b ∈ d, b < 256) (hbpp : 0 < bpp) :
    ∀ x, x < bw → unfilterSubAt (filterSubRow d fp bw bpp) bpp x = d.getD (fp + x) 0 := by
  intro x
  induction x using Nat.strong_induction_on with
  | _ x ih =>
    intro hx
    have hfx : (filterSubRow d fp bw bpp).getD x 0
        = wrap8 ((d.getD (fp + x) 0 : Int) - (leftAt d fp bpp x : Int)) := by
      unfold filterSubRow
      exact getD_range_map _ bw x hx
    rw [unfilterSubAt]
    split
    · rename_i h
      rw [hfx, ih (x - bpp) (by omega) (by omega)]
      have hleft : leftAt d fp bpp x = d.getD (fp + (x - bpp)) 0 := by
        unfold leftAt
        rw [if_pos h.2]
        congr 1
        omega
      rw [hleft]
      exact wrap8_add_cancel _ _ (getD_lt_256 d hB _)
    · rename_i h
      have hleft : leftAt d fp bpp x = 0 := by
        unfold leftAt
        rw [if_neg (by omega)]
      rw [hfx, hleft]
      exact wrap8_add_cancel _ 0 (getD_lt_256 d hB _)

theorem unfilterUp_roundtrip (d : List Nat) (fp bw : Nat)
    (hB : ∀ b ∈ d, b < 256) :
    ∀ x, x < bw → unfilterUpAt (filterUpRow d fp bw) d fp bw x = d.getD (fp + x) 0 := by
  intro x hx
  have hfx : (filterUpRow d fp bw).getD x 0
      = wrap8 ((d.getD (fp + x) 0 : Int) - (upAt d fp bw x : Int)) := by
    unfold filterUpRow
    exact getD_range_map _ bw x hx
  unfold unfilterUpAt
  rw [hfx]
  exact wrap8_add_cancel _ _ (getD_lt_256 d hB _)

theorem unfilterAvg_roundtrip (d : List Nat) (fp bw bpp : Nat)
    (hB : ∀ b ∈ d, b < 256) (hbpp : 0 < bpp) :
    ∀ x, x < bw →
      unfilterAvgAt (filterAvgRow d fp bw bpp) d fp bw bpp x = d.getD (fp + x) 0 := by
  intro x
  induction x using Nat.strong_induction_on with
  | _ x ih =>
    intro hx
    have hfx : (filterAvgRow d fp bw bpp).getD x 0
        = wrap8 ((d.getD (fp + x) 0 : Int) -
            (((leftAt d fp bpp x + upAt d fp bw x) / 2 : Nat) : Int)) := by
      unfold filterAvgRow
      exact getD_range_map _ bw x hx
    rw [unfilterAvgAt]
    split
    · rename_i h
      rw [hfx, ih (x - bpp) (by omega) (by omega)]
      have hleft : leftAt d fp bpp x = d.getD (fp + (x - bpp)) 0 := by
        unfold leftAt
        rw [if_pos h.2]
        congr 1
        omega
      rw [← hleft]
      exact wrap8_add_cancel _ _ (getD_lt_256 d hB _)
    · rename_i h
      have hleft : leftAt d fp bpp x = 0 := by
        unfold leftAt
        rw [if_neg (by omega)]
      rw [hfx, hleft]
      exact wrap8_add_cancel _ _ (getD_lt_256 d hB _)

theorem unfilterPaeth_roundtrip (d : List Nat) (fp bw bpp : Nat)
    (hB : ∀ b ∈ d, b < 256) (hbpp : 0 < bpp) :
    ∀ x, x < bw →
      unfilterPaethAt (filterPaethRow d fp bw bpp) d fp bw bpp x = d.getD (fp + x) 0 := by
  intro x
  induction x using Nat.strong_induction_on with
  | _ x ih =>
    intro hx
    have hfx : (filterPaethRow d fp bw bpp).getD x 0
        = wrap8 ((d.getD (fp + x) 0 : Int) -
            paethPredictor (leftAt d fp bpp x) (upAt d fp bw x)
              (upLeftAt d fp bw bpp x)) := by
      unfold filterPaethRow
      exact getD_range_map _ bw x hx
    have hnn : 0 ≤ paethPredictor (leftAt d fp bpp x) (upAt d fp bw x)
        (upLeftAt d fp bw bpp x) := by
      rcases paethPredictor_mem ((leftAt d fp bpp x : Int)) ((upAt d fp bw x : Int))
          ((upLeftAt d fp bw bpp x : Int)) with h | h | h <;>
        rw [h] <;> exact Int.natCast_nonneg _
    have hcast : ((paethPredictor (leftAt d fp bpp x) (upAt d fp bw x)
        (upLeftAt d fp bw bpp x)).toNat : Int)
        = paethPredictor (leftAt d fp bpp x) (upAt d fp bw x) (upLeftAt d fp bw bpp x) :=
      Int.toNat_of_nonneg hnn
    rw [unfilterPaethAt]
    split
    · rename_i h
      rw [hfx, ih (x - bpp) (by omega) (by omega)]
      have hleft : leftAt d fp bpp x = d.getD (fp + (x - bpp)) 0 := by
        unfold leftAt
        rw [if_pos h.2]
        congr 1
        omega
      rw [← hleft, ← hcast]
      exact wrap8_add_cancel _ _ (getD_lt_256 d hB _)
    · rename_i h
      have hleft : leftAt d fp bpp x = 0 := by
        unfold leftAt
        rw [if_neg (by omega)]
      rw [hfx]
      rw [hleft] at hcast ⊢
      simp only [Nat.cast_zero] at hcast ⊢
      rw [← hcast]
      exact wrap8_add_cancel _ _ (getD_lt_256 d hB _)

/-- C2: filtering a scanline and applying the corresponding inverse-predictor
formula (e.g. `Raw(x) = Sub(x) + Raw(x-bpp) mod 256`) reconstructs the raw
bytes exactly for each of Sub, Up, Average and Paeth, at every row (row 0's
prior row reads as all zeros via `upAt`/`upLeftAt`) and every column
(columns `< bpp` read left/upper-left as zero). -/
theorem filter_inverse_roundtrip (d : List Nat) (fp bw bpp x : Nat)
    (hB : ∀ b ∈ d, b < 256) (hbpp : 0 < bpp) (hx : x < bw) :
    unfilterSubAt (filterSubRow d fp bw bpp) bpp x = d.getD (fp + x) 0 ∧
    unfilterUpAt (filterUpRow d fp bw) d fp bw x = d.getD (fp + x) 0 ∧
    unfilterAvgAt (filterAvgRow d fp bw bpp) d fp bw bpp x = d.getD (fp + x) 0 ∧
    unfilterPaethAt (filterPaethRow d fp bw bpp) d fp bw bpp x = d.getD (fp + x) 0 :=
  ⟨unfilterSub_roundtrip d fp bw bpp hB hbpp x hx,
   unfilterUp_roundtrip d fp bw hB x hx,
   unfilterAvg_roundtrip d fp bw bpp hB hbpp x hx,
   unfilterPaeth_roundtrip d fp bw bpp hB hbpp x hx⟩

theorem filter_inverse_roundtrip_witness :
    (∀ b ∈ [200, 100, 30, 255, 7, 0, 99, 128], b < 256) ∧ (0 : Nat) < 4 ∧ 5 < 8 ∧
    (unfilterSubAt (filterSubRow [200, 100, 30, 255, 7, 0, 99, 128] 0 8 4) 4 5
        = [200, 100, 30, 255, 7, 0, 99, 128].getD (0 + 5) 0 ∧
      unfilterUpAt (filterUpRow [200, 100, 30, 255, 7, 0, 99, 128] 0 8)
          [200, 100, 30, 255, 7, 0, 99, 128] 0 8 5
        = [200, 100, 30, 255, 7, 0, 99, 128].getD (0 + 5) 0 ∧
      unfilterAvgAt (filterAvgRow [200, 100, 30, 255, 7, 0, 99, 128] 0 8 4)
          [200, 100, 30, 255, 7, 0, 99, 128] 0 8 4 5
        = [200, 100, 30, 255, 7, 0, 99, 128].getD (0 + 5) 0 ∧
      unfilterPaethAt (filterPaethRow [200, 100, 30, 255, 7, 0, 99, 128] 0 8 4)
          [200, 100, 30, 255, 7, 0, 99, 128] 0 8 4 5
        = [200, 100, 30, 255, 7, 0, 99, 128].getD (0 + 5) 0) :=
  ⟨by decide, by decide, by decide,
   filter_inverse_roundtrip [200, 100, 30, 255, 7, 0, 99, 128] 0 8 4 5
     (by decide) (by decide) (by decide)⟩

theorem row_output_locality_witness :
    chooseFilter [1, 2, 3, 4] (0 * (1 * 4)) (1 * 4) 4
        = chooseFilter [1, 2, 3, 4] (0 * (1 * 4)) (1 * 4) 4 ∧
    List.take (1 * 4 + 1) (List.drop (0 * (1 * 4 + 1)) (filter 1 1 [1, 2, 3, 4]))
      = List.take (1 * 4 + 1) (List.drop (0 * (1 * 4 + 1)) (filter 1 1 [1, 2, 3, 4])) :=
  row_output_locality [1, 2, 3, 4] [1, 2, 3, 4] 1 1 0 (by decide)
    (fun i _ => rfl) (fun h0 => absurd h0 (by decide))

theorem foldl_size (parts : List (List Nat)) :
    ∀ n : Nat, parts.foldl (fun pr cu => cu.length + pr) n = (parts.map List.length).sum + n := by
  induction parts with
  | nil => intro n; simp
  | cons p ps ih =>
      intro n
      simp only [List.foldl_cons, List.map_cons, List.sum_cons]
      rw [ih]
      omega

theorem concat_go (parts : List (List Nat)) :
    ∀ done : List Nat,
      (parts.foldl (fun (acc : List Nat × Nat) cu => (setBytes acc.1 acc.2 cu, acc.2 + cu.length))
        (done ++ List.replicate ((parts.map List.length).sum) 0, done.length)).1
      = done ++ parts.flatten := by
  induction parts with
  | nil => intro done; simp
  | cons p ps ih =>
      intro done
      simp only [List.foldl_cons, List.map_cons, List.sum_cons]
      have hrepl : List.replicate (p.length + (ps.map List.length).sum) (0 : Nat)
          = List.replicate p.length 0 ++ List.replicate ((ps.map List.length).sum) 0 :=
        List.replicate_add _ _ _
      rw [hrepl]
      have hset : setBytes (done ++ (List.replicate p.length 0 ++
            List.replicate ((ps.map List.length).sum) 0)) done.length p
          = (done ++ p) ++ List.replicate ((ps.map List.length).sum) 0 := by
        rw [setBytes_at p done (List.replicate p.length 0)
          (List.replicate ((ps.map List.length).sum) 0) done.length (by simp) rfl]
        simp
      have hlen : done.length + p.length = (done ++ p).length := by simp
      rw [hset, hlen, ih (done ++ p)]
      simp

theorem concatParts_eq_flatten (parts : List (List Nat)) :
    concatParts parts = parts.flatten := by
  rw [concatParts.eq_def]
  simp only []
  rw [foldl_size parts 0]
  have := concat_go parts []
  simpa using this

theorem set_after_eight (w h : Nat) (t : List Nat) (i v : Nat) (hi : 8 ≤ i) :
    ((beBytes w ++ beBytes h) ++ t).set i v = (beBytes w ++ beBytes h) ++ t.set (i - 8) v := by
  have hl : (beBytes w ++ beBytes h).length = 8 := by simp [beBytes_length]
  rw [List.set_append_right _ _ (by rw [hl]; exact hi), hl]

/-- The IHDR payload buffer is `width`, `height`, then `8, 6, 0, 0, 0`. -/
theorem ihdr_payload_eq (w h : Nat) :
    (((((writeAsBigEndian (writeAsBigEndian (List.replicate 13 0) w 0) h 4).set 8 8).set
        9 6).set 10 0).set 11 0).set 12 0
      = beBytes w ++ beBytes h ++ [8, 6, 0, 0, 0] := by
  have h1 : writeAsBigEndian (List.replicate 13 0) w 0
      = beBytes w ++ List.replicate 9 0 := by
    have hr : (13 : Nat) = 4 + 9 := by omega
    rw [hr, List.replicate_add]
    simpa using writeAsBigEndian_at [] (List.replicate 4 0) (List.replicate 9 0) w 0
      (by simp) (by simp)
  have h2 : writeAsBigEndian (beBytes w ++ List.replicate 9 0) h 4
      = (beBytes w ++ beBytes h) ++ List.replicate 5 0 := by
    have hr : (9 : Nat) = 4 + 5 := by omega
    rw [hr, List.replicate_add]
    rw [writeAsBigEndian_at (beBytes w) (List.replicate 4 0) (List.replicate 5 0) h 4
      (by simp) (by simp [beBytes_length])]
    simp
  rw [h1, h2]
  rw [set_after_eight w h _ 8 8 (by omega), set_after_eight w h _ 9 6 (by omega),
    set_after_eight w h _ 10 0 (by omega), set_after_eight w h _ 11 0 (by omega),
    set_after_eight w h _ 12 0 (by omega)]
  congr 1

theorem writeIHDRChunk_eq (crc : Nat → List Nat → Nat → Nat → Nat) (w h : Nat) :
    writeIHDRChunk crc w h
      = writeChunk crc TYPE_IHDR (some (beBytes w ++ beBytes h ++ [8, 6, 0, 0, 0])) := by
  rw [writeIHDRChunk.eq_def]
  simp only []
  rw [ihdr_payload_eq]

theorem writeChunk_some_length (crc : Nat → List Nat → Nat → Nat → Nat) (type : Nat)
    (d : List Nat) : (writeChunk crc type (some d)).length = d.length + 12 := by
  rw [writeChunk_some]
  simp [beBytes_length]
  omega

theorem writeChunk_none_length (crc : Nat → List Nat → Nat → Nat → Nat) (type : Nat) :
    (writeChunk crc type none).length = 12 := by
  rw [writeChunk_none]
  simp [beBytes_length]

theorem write_parts_eq (deflate : List Nat → ZlibOptions → List Nat)
    (crc : Nat → List Nat → Nat → Nat → Nat) (w h : Nat) (data : List Nat)
    (options : Option PakoOptions) :
    write deflate crc w h data options =
      PNG_SIGNATURE ++ writeChunk crc TYPE_IHDR (some (beBytes w ++ beBytes h ++ [8, 6, 0, 0, 0]))
        ++ writeChunk crc TYPE_IDAT (some (deflate (filter w h data) (optionsForwarded options)))
        ++ writeChunk crc TYPE_IEND none := by
  unfold write writeIDATChunk writeIENDChunk
  rw [concatParts_eq_flatten, writeIHDRChunk_eq]
  simp [List.append_assoc]

theorem write_length_eq (deflate : List Nat → ZlibOptions → List Nat)
    (crc : Nat → List Nat → Nat → Nat → Nat) (w h : Nat) (data : List Nat)
    (options : Option PakoOptions) :
    (write deflate crc w h data options).length
      = 57 + (deflate (filter w h data) (optionsForwarded options)).length := by
  rw [write_parts_eq]
  simp [PNG_SIGNATURE, beBytes_length, writeChunk_some_length, writeChunk_none_length]
  omega

/-- C5: the encoder output is exactly the 8-byte signature, an IHDR chunk
whose 13-byte payload is width (big-endian), height (big-endian),
bit depth 8, color type 6, compression 0, filter method 0, interlace 0,
an IDAT chunk framing the compressed filtered data, and a final empty IEND
chunk, with the output sized exactly to the sum of the parts. -/
theorem encoder_output_layout (deflate : List Nat → ZlibOptions → List Nat)
    (crc : Nat → List Nat → Nat → Nat → Nat) (w h : Nat) (data : List Nat)
    (options : Option PakoOptions) :
    write deflate crc w h data options =
      PNG_SIGNATURE ++ writeChunk crc TYPE_IHDR (some (beBytes w ++ beBytes h ++ [8, 6, 0, 0, 0]))
        ++ writeChunk crc TYPE_IDAT (some (deflate (filter w h data) (optionsForwarded options)))
        ++ writeChunk crc TYPE_IEND none ∧
    (write deflate crc w h data options).length =
      8 + (13 + 12) + ((deflate (filter w h data) (optionsForwarded options)).length + 12) + 12 := by
  refine ⟨write_parts_eq deflate crc w h data options, ?_⟩
  rw [write_length_eq]
  omega

/-- C4 counterexample: the claim says encoding fails fast and returns no
output for invalid dimensions, but `write` has no dimension check: at
width = 0, height = 0 (an invalid input with a matching 0-byte buffer) it
returns a 57-byte PNG stream. -/
theorem no_dimension_check_counterexample :
    (write (fun b _ => b) (fun _ _ _ _ => 0) 0 0 [] none).length = 57 := by
  decide

/-- C4 (amended): the encoder performs no dimension or buffer-length
validation: even when width = 0, height = 0, or the pixel buffer length
differs from `width*height*4`, it still returns an output byte sequence —
signature, IHDR with the degenerate dimensions, IDAT, IEND — of length
57 plus the compressed length. -/
theorem no_dimension_check (deflate : List Nat → ZlibOptions → List Nat)
    (crc : Nat → List Nat → Nat → Nat → Nat) (w h : Nat) (data : List Nat)
    (options : Option PakoOptions)
    (_hbad : w = 0 ∨ h = 0 ∨ data.length ≠ w * h * 4) :
    (write deflate crc w h data options).length
      = 57 + (deflate (filter w h data) (optionsForwarded options)).length :=
  write_length_eq deflate crc w h data options

theorem no_dimension_check_witness :
    ((0 : Nat) = 0 ∨ (1 : Nat) = 0 ∨ ([] : List Nat).length ≠ 0 * 1 * 4) ∧
    (write (fun b _ => b) (fun _ _ _ _ => 0) 0 1 [] none).length
      = 57 + ((fun (b : List Nat) (_ : ZlibOptions) => b) (filter 0 1 [])
          (optionsForwarded none)).length :=
  ⟨Or.inl rfl, no_dimension_check (fun b _ => b) (fun _ _ _ _ => 0) 0 1 [] none (Or.inl rfl)⟩

end CanvasPngCompression

